import Mathlib

/-!
Verification of `scran::center_size_factors` (center_size_factors.hpp).

The size factors are C++ floating-point numbers; we embed them as an inductive
type over the rationals extended with positive infinity, negative infinity and
NaN, together with the IEEE-style arithmetic and the C++ boolean conversion and
comparison semantics that the source relies on.  Stateful code (the in-place
rescaling loops and the diagnostics out-parameter) is embedded by explicit
state passing: each function returns the new size-factor list and the updated
optional diagnostics.
-/

namespace CenterSizeFactors

/-- Rational addition stated directly on numerators and denominators, so that
it evaluates by kernel reduction on concrete inputs (the library `Rat.add` is
irreducible); `qadd_eq` identifies it with `+`. -/
def qadd (a b : ℚ) : ℚ := Rat.divInt (a.num * b.den + b.num * a.den) (a.den * b.den)

/-- Rational division stated directly on numerators and denominators, so that
it evaluates by kernel reduction on concrete inputs (the library `Rat.inv` is
irreducible); `qdiv_eq` identifies it with `/`. -/
def qdiv (a b : ℚ) : ℚ := Rat.divInt (a.num * b.den) (b.num * a.den)

/-- Shallow embedding of the C++ floating-point size-factor values: a rational
value, positive infinity, negative infinity, or NaN. -/
inductive SF where
  | nan : SF
  | inf : SF
  | ninf : SF
  | val : ℚ → SF
  deriving DecidableEq, Repr

namespace SF

/-- IEEE-style addition on the embedded values (NaN absorbs; opposite
infinities give NaN). -/
def add : SF → SF → SF
  | nan, _ => nan
  | _, nan => nan
  | inf, ninf => nan
  | ninf, inf => nan
  | inf, _ => inf
  | _, inf => inf
  | ninf, _ => ninf
  | _, ninf => ninf
  | val a, val b => val (qadd a b)

/-- IEEE-style division on the embedded values (NaN absorbs; inf/inf and 0/0
give NaN; division of a non-zero finite value by zero gives a signed
infinity; a finite value divided by an infinity gives 0). -/
def div : SF → SF → SF
  | nan, _ => nan
  | _, nan => nan
  | inf, inf => nan
  | inf, ninf => nan
  | ninf, inf => nan
  | ninf, ninf => nan
  | inf, val b => if b < 0 then ninf else inf
  | ninf, val b => if b < 0 then inf else ninf
  | val _, inf => val 0
  | val _, ninf => val 0
  | val a, val b =>
    if b = 0 then (if a = 0 then nan else (if a < 0 then ninf else inf))
    else val (qdiv a b)

/-- C++ conversion of a floating-point value to `bool` (as in `if (mean)`):
everything except zero converts to `true`; in particular NaN and the
infinities are truthy. -/
def truthy : SF → Bool
  | val q => decide (q ≠ 0)
  | _ => true

/-- C++ `operator<` on floating-point values: any comparison involving NaN is
false; infinities compare in the usual way. -/
def lt : SF → SF → Bool
  | nan, _ => false
  | _, nan => false
  | ninf, ninf => false
  | ninf, _ => true
  | _, ninf => false
  | inf, _ => false
  | val _, inf => true
  | val a, val b => decide (a < b)

/-- C++ `x > 0` on floating-point values: false for NaN. -/
def gt0 : SF → Bool
  | inf => true
  | val q => decide (0 < q)
  | _ => false

/-- The rational carried by a finite value (0 for NaN and the infinities);
only used on values known to be finite. -/
def toQ : SF → ℚ
  | val q => q
  | _ => 0

end SF

/-- Diagnostics sink recording which categories of invalid size factors were
observed (see sanitize_size_factors::Diagnostics, spec sections 3 and 6). -/
structure Diagnostics where
  has_negative : Bool
  has_zero : Bool
  has_nan : Bool
  has_infinite : Bool
  deriving DecidableEq, Repr

/-- A freshly default-constructed diagnostics record: no category seen. -/
def Diagnostics.empty : Diagnostics := ⟨false, false, false, false⟩

/-- Mark that a negative value was seen. -/
def Diagnostics.withNegative (d : Diagnostics) : Diagnostics :=
  ⟨true, d.has_zero, d.has_nan, d.has_infinite⟩

/-- Mark that a zero value was seen. -/
def Diagnostics.withZero (d : Diagnostics) : Diagnostics :=
  ⟨d.has_negative, true, d.has_nan, d.has_infinite⟩

/-- Mark that a NaN value was seen. -/
def Diagnostics.withNan (d : Diagnostics) : Diagnostics :=
  ⟨d.has_negative, d.has_zero, true, d.has_infinite⟩

/-- Mark that an infinite value was seen. -/
def Diagnostics.withInfinite (d : Diagnostics) : Diagnostics :=
  ⟨d.has_negative, d.has_zero, d.has_nan, true⟩

/-- Modelled from the spec: the invalid-value classifier
`sanitize_size_factors::internal::is_invalid(value, diagnostics)` lives in
`sanitize_size_factors.hpp`, which is not among the sources here.  Per the
spec (section 6 and the glossary) it reports whether a value is invalid,
i.e. non-positive, NaN or infinite, and marks the corresponding category in
the diagnostics as a side effect; a valid value leaves the diagnostics
untouched. -/
def is_invalid : SF → Diagnostics → Bool × Diagnostics
  | SF.nan, d => (true, d.withNan)
  | SF.inf, d => (true, d.withInfinite)
  | SF.ninf, d => (true, d.withInfinite)
  | SF.val q, d =>
    if q < 0 then (true, d.withNegative)
    else if q = 0 then (true, d.withZero)
    else (false, d)

/-- Strategy for handling blocks (center_size_factors.hpp, line 37). -/
inductive BlockMode where
  | PER_BLOCK : BlockMode
  | LOWEST : BlockMode
  deriving DecidableEq, Repr

/-- Options for `compute()` and `compute_blocked()` (lines 42-71). -/
structure Options where
  block_mode : BlockMode
  ignore_invalid : Bool
  deriving DecidableEq, Repr

/-- Modelled from the spec: the group enumerator `tatami_stats::total_groups`
is an external collaborator whose source is not in this repository.  Per the
spec (sections 3 and 6) it returns the total number of blocks, i.e. the
largest block label plus one, and zero when there are no labels. -/
def total_groups : List Nat → Nat
  | [] => 0
  | b :: bs => bs.foldl Nat.max b + 1

/-- One step of the accumulation loop of `compute_mean` under
`ignore_invalid` (lines 94-100): the state is (running sum, running count,
diagnostics). -/
def mean_step (acc : SF × Nat × Diagnostics) (v : SF) : SF × Nat × Diagnostics :=
  let r := is_invalid v acc.2.2
  if r.1 then (acc.1, acc.2.1, r.2) else (acc.1.add v, acc.2.1 + 1, r.2)

/-- Embedding of `compute_mean` (lines 85-111).  The `diagnostics` pointer is
an `Option`: when it is `none` the loop threads a transient local sink whose
final value is discarded, exactly as lines 92-93 do. -/
def compute_mean (size_factors : List SF) (diagnostics : Option Diagnostics)
    (options : Options) : SF × Option Diagnostics :=
  if options.ignore_invalid then
    let r := size_factors.foldl mean_step (SF.val 0, 0, diagnostics.getD Diagnostics.empty)
    let m := if r.2.1 = 0 then SF.val 0 else r.1.div (SF.val (r.2.1 : ℚ))
    (m, diagnostics.map (fun _ => r.2.2))
  else
    let m := if size_factors.length = 0 then SF.val 0
      else (size_factors.foldl SF.add (SF.val 0)).div (SF.val (size_factors.length : ℚ))
    (m, diagnostics)

/-- Result of `compute`: the returned mean, the rescaled size-factor array and
the final state of the optional diagnostics out-parameter. -/
structure ComputeResult where
  mean : SF
  factors : List SF
  diagnostics : Option Diagnostics
  deriving DecidableEq, Repr

/-- Embedding of `compute` (lines 126-135): obtain the mean via
`compute_mean`, and when it converts to `true` as a C++ bool divide every
element by it. -/
def compute (size_factors : List SF) (diagnostics : Option Diagnostics)
    (options : Options) : ComputeResult :=
  let r := compute_mean size_factors diagnostics options
  if r.1.truthy then ⟨r.1, size_factors.map (fun x => x.div r.1), r.2⟩
  else ⟨r.1, size_factors, r.2⟩

/-- Add one value to its block's running sum and count (lines 165-167 and
171-174): state is (per-block sums, per-block counts, diagnostics). -/
def block_add (acc : List SF × List Nat × Diagnostics) (v : SF) (b : Nat) :
    List SF × List Nat × Diagnostics :=
  (acc.1.set b ((acc.1.getD b (SF.val 0)).add v),
   acc.2.1.set b (acc.2.1.getD b 0 + 1),
   acc.2.2)

/-- One step of the `compute_blocked_mean` loop under `ignore_invalid`
(lines 162-168). -/
def block_step_checked (acc : List SF × List Nat × Diagnostics) (p : SF × Nat) :
    List SF × List Nat × Diagnostics :=
  let r := is_invalid p.1 acc.2.2
  if r.1 then (acc.1, acc.2.1, r.2)
  else block_add (acc.1, acc.2.1, r.2) p.1 p.2

/-- One step of the `compute_blocked_mean` loop without `ignore_invalid`
(lines 171-175). -/
def block_step_plain (acc : List SF × List Nat × Diagnostics) (p : SF × Nat) :
    List SF × List Nat × Diagnostics :=
  block_add acc p.1 p.2

/-- The final normalisation pass of `compute_blocked_mean` (lines 178-182):
each block with a non-zero count has its sum divided by its count; a block
with a zero count keeps its value. -/
def normalize_means : List SF → List Nat → List SF
  | m :: ms, n :: ns =>
    (if n = 0 then m else m.div (SF.val (n : ℚ))) :: normalize_means ms ns
  | _, _ => []

/-- Embedding of `compute_blocked_mean` (lines 152-185). -/
def compute_blocked_mean (size_factors : List SF) (block : List Nat)
    (diagnostics : Option Diagnostics) (options : Options) :
    List SF × Option Diagnostics :=
  let ngroups := total_groups block
  let init : List SF × List Nat × Diagnostics :=
    (List.replicate ngroups (SF.val 0), List.replicate ngroups 0,
     diagnostics.getD Diagnostics.empty)
  let r :=
    if options.ignore_invalid then (size_factors.zip block).foldl block_step_checked init
    else (size_factors.zip block).foldl block_step_plain init
  (normalize_means r.1 r.2.1,
   if options.ignore_invalid then diagnostics.map (fun _ => r.2.2) else diagnostics)

/-- Result of `compute_blocked`: the rescaled size-factor array, the returned
per-block mean vector and the final optional diagnostics. -/
structure BlockedResult where
  factors : List SF
  means : List SF
  diagnostics : Option Diagnostics
  deriving DecidableEq, Repr

/-- One step of the minimum search of the `LOWEST` strategy (lines 218-227):
state is (current minimum, found flag). -/
def lowest_step (acc : SF × Bool) (m : SF) : SF × Bool :=
  if m.truthy then (if !acc.2 || m.lt acc.1 then (m, true) else acc) else acc

/-- Embedding of `compute_blocked` (lines 203-237). -/
def compute_blocked (size_factors : List SF) (block : List Nat)
    (diagnostics : Option Diagnostics) (options : Options) : BlockedResult :=
  let r := compute_blocked_mean size_factors block diagnostics options
  let group_mean := r.1
  let factors :=
    match options.block_mode with
    | BlockMode.PER_BLOCK =>
      (size_factors.zip block).map (fun p =>
        let dv := group_mean.getD p.2 (SF.val 0)
        if dv.truthy then p.1.div dv else p.1)
    | BlockMode.LOWEST =>
      let mn := group_mean.foldl lowest_step (SF.val 0, false)
      if mn.1.gt0 then size_factors.map (fun x => x.div mn.1) else size_factors
  ⟨factors, group_mean, r.2⟩

/-- A value the invalid-value classifier accepts. -/
def isValid (v : SF) : Bool := !(is_invalid v Diagnostics.empty).1

/-- Whether a value contributes to the statistics under the given
`ignore_invalid` setting: every value when the flag is off, only
classifier-valid values when it is on. -/
def includedB (ii : Bool) (v : SF) : Bool := !ii || isValid v

/-- The values of (value, block) pairs that belong to block `g` and are
included under the `ignore_invalid` setting, in order. -/
def contribP (ii : Bool) (pairs : List (SF × Nat)) (g : Nat) : List SF :=
  (pairs.filter (fun p => p.2 == g && includedB ii p.1)).map Prod.fst

/-- The subsequence of `xs` whose entries belong to block `g`. -/
def blockEntries (xs : List SF) (block : List Nat) (g : Nat) : List SF :=
  ((xs.zip block).filter (fun p => p.2 == g)).map Prod.fst

/-- The mean the spec prescribes for a list of contributing values: 0 when
there are none, otherwise their sum divided by their count. -/
def specMean (c : List SF) : SF :=
  if c.length = 0 then SF.val 0
  else (c.foldl SF.add (SF.val 0)).div (SF.val (c.length : ℚ))

/-- The diagnostics threading of a scan over a list of values. -/
def diag_fold (l : List SF) (d : Diagnostics) : Diagnostics :=
  l.foldl (fun d v => (is_invalid v d).2) d

lemma den_cast_ne (a : ℚ) : ((a.den : ℚ)) ≠ 0 := by
  exact_mod_cast a.den_nz

lemma num_eq_mul_den (a : ℚ) : (a.num : ℚ) = a * a.den :=
  (div_eq_iff (den_cast_ne a)).mp (Rat.num_div_den a)

lemma qadd_eq (a b : ℚ) : qadd a b = a + b := by
  unfold qadd
  rw [Rat.divInt_eq_div]
  push_cast
  rw [div_eq_iff (mul_ne_zero (den_cast_ne a) (den_cast_ne b))]
  rw [num_eq_mul_den a, num_eq_mul_den b]
  ring

lemma qdiv_eq (a b : ℚ) : qdiv a b = a / b := by
  unfold qdiv
  by_cases hb : b = 0
  · subst hb
    simp
  · have hbn : ((b.num : ℚ)) ≠ 0 := by
      exact_mod_cast Rat.num_ne_zero.mpr hb
    rw [Rat.divInt_eq_div]
    push_cast
    rw [div_eq_div_iff (mul_ne_zero hbn (den_cast_ne a)) hb]
    rw [num_eq_mul_den a, num_eq_mul_den b]
    ring

lemma SF.add_val (a b : ℚ) : SF.add (SF.val a) (SF.val b) = SF.val (a + b) := by
  simp [SF.add, qadd_eq]

lemma SF.div_val (a b : ℚ) (hb : b ≠ 0) :
    SF.div (SF.val a) (SF.val b) = SF.val (a / b) := by
  simp [SF.div, hb, qdiv_eq]

lemma truthy_iff (m : SF) : m.truthy = true ↔ m ≠ SF.val 0 := by
  cases m <;> simp [SF.truthy]

lemma compute_unfold (sfs : List SF) (dg : Option Diagnostics) (opts : Options) :
    compute sfs dg opts =
      ⟨(compute_mean sfs dg opts).1,
       if (compute_mean sfs dg opts).1.truthy then
         sfs.map (fun x => x.div (compute_mean sfs dg opts).1)
       else sfs,
       (compute_mean sfs dg opts).2⟩ := by
  unfold compute
  split <;> rename_i h <;> simp [h]

lemma compute_mean_proj (sfs : List SF) (dg : Option Diagnostics) (opts : Options) :
    (compute sfs dg opts).mean = (compute_mean sfs dg opts).1 := by
  rw [compute_unfold]

lemma compute_factors_proj (sfs : List SF) (dg : Option Diagnostics) (opts : Options) :
    (compute sfs dg opts).factors =
      if (compute_mean sfs dg opts).1.truthy then
        sfs.map (fun x => x.div (compute_mean sfs dg opts).1)
      else sfs := by
  rw [compute_unfold]

lemma compute_diag_proj (sfs : List SF) (dg : Option Diagnostics) (opts : Options) :
    (compute sfs dg opts).diagnostics = (compute_mean sfs dg opts).2 := by
  rw [compute_unfold]

lemma is_invalid_fst (v : SF) (d : Diagnostics) : (is_invalid v d).1 = !(isValid v) := by
  cases v <;> simp [is_invalid, isValid] <;> split <;> simp_all <;> split <;> simp_all

lemma mean_loop_spec (l : List SF) (s : SF) (n : Nat) (d : Diagnostics) :
    l.foldl mean_step (s, n, d) =
      ((l.filter (fun v => isValid v)).foldl SF.add s,
       n + (l.filter (fun v => isValid v)).length,
       diag_fold l d) := by
  induction l generalizing s n d with
  | nil => simp [diag_fold]
  | cons v l ih =>
    rw [List.foldl_cons]
    by_cases h : isValid v = true
    · have hstep : mean_step (s, n, d) v = (s.add v, n + 1, (is_invalid v d).2) := by
        simp [mean_step, is_invalid_fst, h]
      rw [hstep, ih]
      simp [List.filter_cons, h, diag_fold]
      omega
    · have hstep : mean_step (s, n, d) v = (s, n, (is_invalid v d).2) := by
        simp [mean_step, is_invalid_fst, h]
      rw [hstep, ih]
      simp [List.filter_cons, h, diag_fold]

lemma filter_included_true (l : List SF) :
    l.filter (fun v => includedB true v) = l.filter (fun v => isValid v) := by
  apply List.filter_congr
  intro x _
  simp [includedB]

lemma filter_included_false (l : List SF) :
    l.filter (fun v => includedB false v) = l := by
  simp [includedB, List.filter_true]

lemma compute_mean_char (l : List SF) (dg : Option Diagnostics) (opts : Options) :
    (compute_mean l dg opts).1 =
      specMean (l.filter (fun v => includedB opts.ignore_invalid v)) := by
  rcases opts with ⟨mode, ii⟩
  cases ii
  · simp only [compute_mean, specMean, filter_included_false]
    rfl
  · simp only [compute_mean, specMean, filter_included_true]
    rw [mean_loop_spec]
    simp

lemma foldl_add_zeros (l : List SF) (h : ∀ x ∈ l, x = SF.val 0) :
    l.foldl SF.add (SF.val 0) = SF.val 0 := by
  induction l with
  | nil => rfl
  | cons v l ih =>
    have hv := h v (by simp)
    rw [List.foldl_cons, hv]
    have hz : SF.add (SF.val 0) (SF.val 0) = SF.val 0 := by
      rw [SF.add_val]
      norm_num
    rw [hz]
    exact ih (fun x hx => h x (by simp [hx]))

lemma specMean_zeros (c : List SF) (h : ∀ x ∈ c, x = SF.val 0) :
    specMean c = SF.val 0 := by
  unfold specMean
  split
  · rfl
  · rename_i hne
    rw [foldl_add_zeros c h]
    have hq : ((c.length : ℚ)) ≠ 0 := by
      simpa using hne
    rw [SF.div_val 0 _ hq]
    simp

lemma isValid_val (v : SF) (h : isValid v = true) : ∃ q : ℚ, v = SF.val q ∧ 0 < q := by
  cases v <;> simp [isValid, is_invalid] at h
  · rename_i q
    refine ⟨q, rfl, ?_⟩
    by_contra hq
    push_neg at hq
    rcases lt_or_eq_of_le hq with h1 | h1
    · simp [h1] at h
    · simp [← h1] at h

lemma foldl_add_vals (l : List SF) (a : ℚ) (h : ∀ x ∈ l, ∃ q : ℚ, x = SF.val q) :
    l.foldl SF.add (SF.val a) = SF.val (a + (l.map SF.toQ).sum) := by
  induction l generalizing a with
  | nil => simp
  | cons v l ih =>
    rcases h v (by simp) with ⟨q, hq⟩
    subst hq
    rw [List.foldl_cons, SF.add_val, ih (a + q) (fun x hx => h x (by simp [hx]))]
    simp [SF.toQ]
    ring

/-- Claim C1: `compute()` first obtains the mean via `compute_mean()`; if that
mean is non-zero it divides every element of the array by the mean, if the
mean is zero it leaves the array unchanged, and in both cases it returns the
computed mean; for an all-zero input array it returns 0 and the array is
unchanged. -/
theorem claim1_compute_global_centering (sfs : List SF) (dg : Option Diagnostics)
    (opts : Options) :
    (compute sfs dg opts).mean = (compute_mean sfs dg opts).1 ∧
    ((compute_mean sfs dg opts).1 ≠ SF.val 0 →
      (compute sfs dg opts).factors = sfs.map (fun x => x.div (compute_mean sfs dg opts).1)) ∧
    ((compute_mean sfs dg opts).1 = SF.val 0 → (compute sfs dg opts).factors = sfs) ∧
    ((∀ x ∈ sfs, x = SF.val 0) →
      (compute_mean sfs dg opts).1 = SF.val 0 ∧ (compute sfs dg opts).factors = sfs) := by
  refine ⟨compute_mean_proj sfs dg opts, ?_, ?_, ?_⟩
  · intro h
    rw [compute_factors_proj, if_pos ((truthy_iff _).mpr h)]
  · intro h
    rw [compute_factors_proj, if_neg]
    rw [truthy_iff]
    simp [h]
  · intro h
    have hm : (compute_mean sfs dg opts).1 = SF.val 0 := by
      rw [compute_mean_char]
      exact specMean_zeros _ (fun x hx => h x (List.mem_of_mem_filter hx))
    refine ⟨hm, ?_⟩
    rw [compute_factors_proj, if_neg]
    rw [truthy_iff]
    simp [hm]

/-- Witness for claim C1 at the all-zero array `[0]`. -/
theorem claim1_witness :
    (compute_mean [SF.val 0] none ⟨BlockMode.LOWEST, true⟩).1 = SF.val 0 ∧
    (compute [SF.val 0] none ⟨BlockMode.LOWEST, true⟩).factors = [SF.val 0] :=
  (claim1_compute_global_centering [SF.val 0] none ⟨BlockMode.LOWEST, true⟩).2.2.2 (by decide)

/-- Claim C4: with `ignore_invalid = true`, `compute_mean()` returns the sum
of the classifier-valid values divided by their count, and whenever the
contributing count is zero (for either setting of `ignore_invalid`, including
an empty array) it returns 0 instead of dividing by zero. -/
theorem claim4_compute_mean_valid_average (sfs : List SF) (dg : Option Diagnostics)
    (mode : BlockMode) :
    ((sfs.filter (fun v => isValid v)).length ≠ 0 →
      (compute_mean sfs dg ⟨mode, true⟩).1 =
        SF.val ((((sfs.filter (fun v => isValid v)).map SF.toQ).sum) /
          (((sfs.filter (fun v => isValid v)).length : ℚ)))) ∧
    ((sfs.filter (fun v => isValid v)).length = 0 →
      (compute_mean sfs dg ⟨mode, true⟩).1 = SF.val 0) ∧
    (∀ ii : Bool, (compute_mean [] dg ⟨mode, ii⟩).1 = SF.val 0) := by
  refine ⟨?_, ?_, ?_⟩
  · intro h
    rw [compute_mean_char]
    unfold specMean
    rw [filter_included_true]
    rw [if_neg h]
    have hvals : ∀ x ∈ sfs.filter (fun v => isValid v), ∃ q : ℚ, x = SF.val q := by
      intro x hx
      rcases isValid_val x (List.of_mem_filter hx) with ⟨q, hq, _⟩
      exact ⟨q, hq⟩
    rw [foldl_add_vals _ 0 hvals]
    have hL : (((sfs.filter (fun v => isValid v)).length : ℚ)) ≠ 0 := by
      simpa using h
    rw [SF.div_val _ _ hL]
    norm_num
  · intro h
    rw [compute_mean_char, filter_included_true]
    rw [List.length_eq_zero] at h
    rw [h]
    rfl
  · intro ii
    cases ii <;> rfl

/-- Witness for claim C4 at the array `[1, -1]`, whose only valid value is 1. -/
theorem claim4_witness :
    (compute_mean [SF.val 1, SF.val (-1)] none ⟨BlockMode.LOWEST, true⟩).1 =
      SF.val (((([SF.val 1, SF.val (-1)].filter (fun v => isValid v)).map SF.toQ).sum) /
        ((([SF.val 1, SF.val (-1)].filter (fun v => isValid v)).length : ℚ))) :=
  (claim4_compute_mean_valid_average [SF.val 1, SF.val (-1)] none BlockMode.LOWEST).1 (by decide)

/-- Claim C6 fails on the code: for the input `[1, -1, NaN, 3]` with
`ignore_invalid = true` the final array is not `[0.5, -1.0, NaN, 1.5]`,
because the rescaling pass divides every element, the invalid `-1.0`
included, so entry 1 becomes `-0.5`. -/
theorem claim6_counterexample :
    (compute [SF.val 1, SF.val (-1), SF.nan, SF.val 3] (some Diagnostics.empty)
        ⟨BlockMode.LOWEST, true⟩).factors ≠
      [SF.val (mkRat 1 2), SF.val (-1), SF.nan, SF.val (mkRat 3 2)] := by
  decide

/-- Claim C6 as amended: for the input `[1, -1, NaN, 3]` with
`ignore_invalid = true`, `compute()` returns mean 2 (computed over the valid
values 1 and 3 only), the diagnostics record that a negative value and a NaN
value were seen, and the final array is `[0.5, -0.5, NaN, 1.5]`: every
entry, the invalid ones included, is divided by the mean, and none is
replaced. -/
theorem claim6_divides_every_entry :
    compute [SF.val 1, SF.val (-1), SF.nan, SF.val 3] (some Diagnostics.empty)
        ⟨BlockMode.LOWEST, true⟩ =
      ⟨SF.val 2,
       [SF.val (mkRat 1 2), SF.val (mkRat (-1) 2), SF.nan, SF.val (mkRat 3 2)],
       some ⟨true, false, true, false⟩⟩ := by
  decide

/-- Claim C7: for every input and for both block modes, `compute_blocked()`
returns the per-block mean vector exactly as computed by
`compute_blocked_mean()`; neither rescaling strategy modifies it. -/
theorem claim7_returns_pre_reconciliation_means (sfs : List SF) (block : List Nat)
    (dg : Option Diagnostics) (opts : Options) :
    (compute_blocked sfs block dg opts).means =
      (compute_blocked_mean sfs block dg opts).1 := rfl

/-- Claim C8: for the input `[1, -1, NaN, 3]` with `ignore_invalid = false`,
the computed mean includes all four values and is NaN, the zero-mean guard is
bypassed because NaN converts to `true` as a C++ bool, and `compute()`
divides every element by NaN so the array becomes all-NaN. -/
theorem claim8_nan_mean_poisons_array :
    (compute_mean [SF.val 1, SF.val (-1), SF.nan, SF.val 3] (some Diagnostics.empty)
        ⟨BlockMode.LOWEST, false⟩).1 = SF.nan ∧
    SF.truthy SF.nan = true ∧
    (compute [SF.val 1, SF.val (-1), SF.nan, SF.val 3] (some Diagnostics.empty)
        ⟨BlockMode.LOWEST, false⟩).factors = [SF.nan, SF.nan, SF.nan, SF.nan] := by
  decide

/-- Claim C2 fails on the code as stated for every input: with
`ignore_invalid = false` and size factors `[-5, 2]` in blocks `[0, 1]`, the
minimum strictly-positive per-block mean is 2 (block 1), yet `LOWEST` leaves
the array unmodified — the code's minimum search also admits the negative
mean -5, and the resulting minimum fails its `> 0` test — whereas dividing
by 2 would have changed the array. -/
theorem claim2_counterexample :
    (compute_blocked [SF.val (-5), SF.val 2] [0, 1] none ⟨BlockMode.LOWEST, false⟩).means =
      [SF.val (-5), SF.val 2] ∧
    (compute_blocked [SF.val (-5), SF.val 2] [0, 1] none ⟨BlockMode.LOWEST, false⟩).factors =
      [SF.val (-5), SF.val 2] ∧
    [SF.val (-5), SF.val 2].map (fun x => x.div (SF.val 2)) ≠ [SF.val (-5), SF.val 2] := by
  decide

lemma plain_fold_d (pairs : List (SF × Nat)) (gm : List SF) (gn : List Nat)
    (d d2 : Diagnostics) :
    (pairs.foldl block_step_plain (gm, gn, d)).1 =
      (pairs.foldl block_step_plain (gm, gn, d2)).1 ∧
    (pairs.foldl block_step_plain (gm, gn, d)).2.1 =
      (pairs.foldl block_step_plain (gm, gn, d2)).2.1 ∧
    (pairs.foldl block_step_plain (gm, gn, d)).2.2 = d := by
  induction pairs generalizing gm gn with
  | nil => exact ⟨rfl, rfl, rfl⟩
  | cons p ps ih =>
    rw [List.foldl_cons, List.foldl_cons]
    exact ih _ _

lemma blocked_means_eq (sfs : List SF) (block : List Nat) (dg : Option Diagnostics)
    (opts : Options) :
    (compute_blocked sfs block dg opts).means = (compute_blocked_mean sfs block dg opts).1 := rfl

lemma blocked_diag_eq (sfs : List SF) (block : List Nat) (dg : Option Diagnostics)
    (opts : Options) :
    (compute_blocked sfs block dg opts).diagnostics =
      (compute_blocked_mean sfs block dg opts).2 := rfl

lemma blocked_mean_fst_plain (sfs : List SF) (block : List Nat)
    (dg dg2 : Option Diagnostics) (mode : BlockMode) :
    (compute_blocked_mean sfs block dg ⟨mode, false⟩).1 =
      (compute_blocked_mean sfs block dg2 ⟨mode, false⟩).1 := by
  unfold compute_blocked_mean
  simp only [show (Options.mk mode false).ignore_invalid = false from rfl, Bool.false_eq_true,
    if_false]
  rcases plain_fold_d (sfs.zip block) (List.replicate (total_groups block) (SF.val 0))
    (List.replicate (total_groups block) 0) (dg.getD Diagnostics.empty)
    (dg2.getD Diagnostics.empty) with ⟨h1, h2, _⟩
  rw [h1, h2]

/-- Claim C9: with `ignore_invalid = false`, none of the four entry points
reads or writes the caller-supplied diagnostics sink: the sink comes back
exactly unchanged, and none of the computed results depends on it. -/
theorem claim9_diagnostics_bypassed (sfs : List SF) (block : List Nat)
    (dg : Option Diagnostics) (mode : BlockMode) :
    (compute_mean sfs dg ⟨mode, false⟩).2 = dg ∧
    (compute sfs dg ⟨mode, false⟩).diagnostics = dg ∧
    (compute_blocked_mean sfs block dg ⟨mode, false⟩).2 = dg ∧
    (compute_blocked sfs block dg ⟨mode, false⟩).diagnostics = dg ∧
    (∀ dg2 : Option Diagnostics,
      (compute_mean sfs dg ⟨mode, false⟩).1 = (compute_mean sfs dg2 ⟨mode, false⟩).1 ∧
      (compute sfs dg ⟨mode, false⟩).factors = (compute sfs dg2 ⟨mode, false⟩).factors ∧
      (compute_blocked_mean sfs block dg ⟨mode, false⟩).1 =
        (compute_blocked_mean sfs block dg2 ⟨mode, false⟩).1 ∧
      (compute_blocked sfs block dg ⟨mode, false⟩).factors =
        (compute_blocked sfs block dg2 ⟨mode, false⟩).factors) := by
  refine ⟨?_, ?_, ?_, ?_, ?_⟩
  · exact rfl
  · rw [compute_diag_proj]
    exact rfl
  · exact rfl
  · rw [blocked_diag_eq]
    exact rfl
  · intro dg2
    refine ⟨?_, ?_, blocked_mean_fst_plain sfs block dg dg2 mode, ?_⟩
    · exact rfl
    · rw [compute_factors_proj, compute_factors_proj]
      exact rfl
    · simp only [compute_blocked]
      rw [blocked_mean_fst_plain sfs block dg dg2 mode]

/-- Claim C10: a NULL diagnostics pointer and a freshly default-constructed
diagnostics sink give exactly the same returned means and the same final
size-factor arrays, for every option value: the diagnostics side-channel
never influences the computation. -/
theorem claim10_null_diagnostics_noninterference (sfs : List SF) (block : List Nat)
    (opts : Options) :
    (compute sfs none opts).mean = (compute sfs (some Diagnostics.empty) opts).mean ∧
    (compute sfs none opts).factors = (compute sfs (some Diagnostics.empty) opts).factors ∧
    (compute_blocked sfs block none opts).means =
      (compute_blocked sfs block (some Diagnostics.empty) opts).means ∧
    (compute_blocked sfs block none opts).factors =
      (compute_blocked sfs block (some Diagnostics.empty) opts).factors := by
  rcases opts with ⟨mode, ii⟩
  cases ii <;> cases mode
  all_goals refine ⟨?_, ?_, ?_, ?_⟩
  all_goals first
    | (rw [compute_mean_proj, compute_mean_proj]; exact rfl)
    | (rw [compute_factors_proj, compute_factors_proj]; exact rfl)
    | (rw [blocked_means_eq, blocked_means_eq]; exact rfl)
    | (simp only [compute_blocked]; exact rfl)

lemma getD_set_self (l : List α) (i : Nat) (x d : α) (h : i < l.length) :
    (l.set i x).getD i d = x := by
  rw [List.getD_eq_getElem?_getD, List.getElem?_set_self', List.getElem?_eq_getElem h]
  rfl

lemma getD_set_ne (l : List α) (i j : Nat) (x d : α) (h : i ≠ j) :
    (l.set i x).getD j d = l.getD j d := by
  rw [List.getD_eq_getElem?_getD, List.getElem?_set_ne h, List.getD_eq_getElem?_getD]

lemma getD_replicate_any (n g : Nat) (x : α) : (List.replicate n x).getD g x = x := by
  rw [List.getD_eq_getElem?_getD, List.getElem?_replicate]
  by_cases h : g < n <;> simp [h]

lemma getD_out_of_range (l : List α) (g : Nat) (d : α) (h : ¬ g < l.length) :
    l.getD g d = d := by
  rw [List.getD_eq_getElem?_getD, List.getElem?_eq_none (by omega)]
  rfl

lemma contrib_out_of_range (pairs : List (SF × Nat)) (ii : Bool) (g : Nat)
    (h : ∀ p ∈ pairs, p.2 ≠ g) : contribP ii pairs g = [] := by
  unfold contribP
  rw [List.filter_eq_nil.mpr, List.map_nil]
  intro p hp
  simp only [Bool.and_eq_true, beq_iff_eq]
  intro hc
  exact h p hp hc.1

lemma foldl_max_bound (xs : List Nat) (a : Nat) :
    a ≤ xs.foldl Nat.max a ∧ ∀ b ∈ xs, b ≤ xs.foldl Nat.max a := by
  induction xs generalizing a with
  | nil => simp
  | cons x xs ih =>
    rw [List.foldl_cons]
    rcases ih (Nat.max a x) with ⟨h1, h2⟩
    refine ⟨le_trans (Nat.le_max_left a x) h1, ?_⟩
    intro b hb
    rcases List.mem_cons.mp hb with hbx | hbm
    · subst hbx
      exact le_trans (Nat.le_max_right a b) h1
    · exact h2 b hbm

lemma mem_lt_total_groups (block : List Nat) (b : Nat) (hb : b ∈ block) :
    b < total_groups block := by
  cases block with
  | nil => cases hb
  | cons x xs =>
    rw [show total_groups (x :: xs) = xs.foldl Nat.max x + 1 from rfl]
    rcases List.mem_cons.mp hb with h | h
    · subst h
      have := (foldl_max_bound xs b).1
      omega
    · have := (foldl_max_bound xs x).2 b h
      omega

lemma contribP_cons (ii : Bool) (p : SF × Nat) (ps : List (SF × Nat)) (g : Nat) :
    contribP ii (p :: ps) g =
      if p.2 = g ∧ includedB ii p.1 = true then p.1 :: contribP ii ps g
      else contribP ii ps g := by
  unfold contribP
  rw [List.filter_cons]
  by_cases h1 : p.2 = g
  · by_cases h2 : includedB ii p.1 = true
    · simp [h1, h2]
    · simp [h1, h2]
  · simp [h1]

lemma checked_fold_char (pairs : List (SF × Nat)) (gm : List SF) (gn : List Nat)
    (d : Diagnostics) (hlen : gn.length = gm.length)
    (hb : ∀ p ∈ pairs, p.2 < gm.length) (g : Nat) :
    ((pairs.foldl block_step_checked (gm, gn, d)).1.getD g (SF.val 0) =
      (contribP true pairs g).foldl SF.add (gm.getD g (SF.val 0))) ∧
    ((pairs.foldl block_step_checked (gm, gn, d)).2.1.getD g 0 =
      gn.getD g 0 + (contribP true pairs g).length) ∧
    (pairs.foldl block_step_checked (gm, gn, d)).1.length = gm.length ∧
    (pairs.foldl block_step_checked (gm, gn, d)).2.1.length = gn.length := by
  induction pairs generalizing gm gn d with
  | nil => simp [contribP]
  | cons p ps ih =>
    rw [List.foldl_cons]
    by_cases hv : isValid p.1 = true
    · have hstep : block_step_checked (gm, gn, d) p =
          (gm.set p.2 ((gm.getD p.2 (SF.val 0)).add p.1),
           gn.set p.2 (gn.getD p.2 0 + 1), (is_invalid p.1 d).2) := by
        simp [block_step_checked, is_invalid_fst, hv, block_add]
      rw [hstep, contribP_cons]
      have hlt : p.2 < gm.length := hb p (by simp)
      have hltn : p.2 < gn.length := by omega
      have hb' : ∀ q ∈ ps, q.2 < (gm.set p.2 ((gm.getD p.2 (SF.val 0)).add p.1)).length := by
        intro q hq
        rw [List.length_set]
        exact hb q (by simp [hq])
      have hlen' : (gn.set p.2 (gn.getD p.2 0 + 1)).length =
          (gm.set p.2 ((gm.getD p.2 (SF.val 0)).add p.1)).length := by
        rw [List.length_set, List.length_set]
        exact hlen
      rcases ih (gm.set p.2 ((gm.getD p.2 (SF.val 0)).add p.1))
        (gn.set p.2 (gn.getD p.2 0 + 1)) ((is_invalid p.1 d).2) hlen' hb' with ⟨ih1, ih2, ih3, ih4⟩
      by_cases hg : p.2 = g
      · subst hg
        rw [if_pos ⟨rfl, by simp [includedB, hv]⟩]
        refine ⟨?_, ?_, ?_, ?_⟩
        · rw [ih1, getD_set_self _ _ _ _ hlt, List.foldl_cons]
        · rw [ih2, getD_set_self _ _ _ _ hltn]
          simp [Nat.add_assoc, Nat.add_comm 1]
        · rw [ih3, List.length_set]
        · rw [ih4, List.length_set]
      · rw [if_neg (fun hc => hg hc.1)]
        refine ⟨?_, ?_, ?_, ?_⟩
        · rw [ih1, getD_set_ne _ _ _ _ _ hg]
        · rw [ih2, getD_set_ne _ _ _ _ _ hg]
        · rw [ih3, List.length_set]
        · rw [ih4, List.length_set]
    · have hstep : block_step_checked (gm, gn, d) p = (gm, gn, (is_invalid p.1 d).2) := by
        simp [block_step_checked, is_invalid_fst, hv]
      rw [hstep, contribP_cons, if_neg (by simp [includedB, hv])]
      exact ih gm gn ((is_invalid p.1 d).2) hlen (fun q hq => hb q (by simp [hq]))

lemma plain_fold_char (pairs : List (SF × Nat)) (gm : List SF) (gn : List Nat)
    (d : Diagnostics) (hlen : gn.length = gm.length)
    (hb : ∀ p ∈ pairs, p.2 < gm.length) (g : Nat) :
    ((pairs.foldl block_step_plain (gm, gn, d)).1.getD g (SF.val 0) =
      (contribP false pairs g).foldl SF.add (gm.getD g (SF.val 0))) ∧
    ((pairs.foldl block_step_plain (gm, gn, d)).2.1.getD g 0 =
      gn.getD g 0 + (contribP false pairs g).length) ∧
    (pairs.foldl block_step_plain (gm, gn, d)).1.length = gm.length ∧
    (pairs.foldl block_step_plain (gm, gn, d)).2.1.length = gn.length := by
  induction pairs generalizing gm gn d with
  | nil => simp [contribP]
  | cons p ps ih =>
    rw [List.foldl_cons]
    have hstep : block_step_plain (gm, gn, d) p =
        (gm.set p.2 ((gm.getD p.2 (SF.val 0)).add p.1),
         gn.set p.2 (gn.getD p.2 0 + 1), d) := rfl
    rw [hstep, contribP_cons]
    have hlt : p.2 < gm.length := hb p (by simp)
    have hltn : p.2 < gn.length := by omega
    have hb' : ∀ q ∈ ps, q.2 < (gm.set p.2 ((gm.getD p.2 (SF.val 0)).add p.1)).length := by
      intro q hq
      rw [List.length_set]
      exact hb q (by simp [hq])
    have hlen' : (gn.set p.2 (gn.getD p.2 0 + 1)).length =
        (gm.set p.2 ((gm.getD p.2 (SF.val 0)).add p.1)).length := by
      rw [List.length_set, List.length_set]
      exact hlen
    rcases ih (gm.set p.2 ((gm.getD p.2 (SF.val 0)).add p.1))
      (gn.set p.2 (gn.getD p.2 0 + 1)) d hlen' hb' with ⟨ih1, ih2, ih3, ih4⟩
    by_cases hg : p.2 = g
    · subst hg
      rw [if_pos ⟨rfl, by simp [includedB]⟩]
      refine ⟨?_, ?_, ?_, ?_⟩
      · rw [ih1, getD_set_self _ _ _ _ hlt, List.foldl_cons]
      · rw [ih2, getD_set_self _ _ _ _ hltn]
        simp [Nat.add_assoc, Nat.add_comm 1]
      · rw [ih3, List.length_set]
      · rw [ih4, List.length_set]
    · rw [if_neg (fun hc => hg hc.1)]
      refine ⟨?_, ?_, ?_, ?_⟩
      · rw [ih1, getD_set_ne _ _ _ _ _ hg]
      · rw [ih2, getD_set_ne _ _ _ _ _ hg]
      · rw [ih3, List.length_set]
      · rw [ih4, List.length_set]

lemma normalize_means_length (ms : List SF) (ns : List Nat) :
    (normalize_means ms ns).length = min ms.length ns.length := by
  induction ms generalizing ns with
  | nil => cases ns <;> simp [normalize_means]
  | cons m ms ih =>
    cases ns with
    | nil => simp [normalize_means]
    | cons n ns =>
      rw [show normalize_means (m :: ms) (n :: ns) =
        (if n = 0 then m else m.div (SF.val (n : ℚ))) :: normalize_means ms ns from rfl]
      simp [ih]
      omega

lemma normalize_means_getD (ms : List SF) (ns : List Nat) (g : Nat)
    (h1 : g < ms.length) (h2 : g < ns.length) :
    (normalize_means ms ns).getD g (SF.val 0) =
      if ns.getD g 0 = 0 then ms.getD g (SF.val 0)
      else (ms.getD g (SF.val 0)).div (SF.val ((ns.getD g 0 : Nat) : ℚ)) := by
  induction ms generalizing ns g with
  | nil => simp at h1
  | cons m ms ih =>
    cases ns with
    | nil => simp at h2
    | cons n ns =>
      rw [show normalize_means (m :: ms) (n :: ns) =
        (if n = 0 then m else m.div (SF.val (n : ℚ))) :: normalize_means ms ns from rfl]
      cases g with
      | zero => simp [List.getD]
      | succ g =>
        have h1' : g < ms.length := by simpa using h1
        have h2' : g < ns.length := by simpa using h2
        simpa [List.getD] using ih ns g h1' h2'

end CenterSizeFactors

namespace CenterSizeFactors

lemma blocked_means_ii (sfs : List SF) (block : List Nat) (dg : Option Diagnostics)
    (mode : BlockMode) :
    (compute_blocked_mean sfs block dg ⟨mode, true⟩).1 =
      normalize_means
        ((sfs.zip block).foldl block_step_checked
          (List.replicate (total_groups block) (SF.val 0),
           List.replicate (total_groups block) 0, dg.getD Diagnostics.empty)).1
        ((sfs.zip block).foldl block_step_checked
          (List.replicate (total_groups block) (SF.val 0),
           List.replicate (total_groups block) 0, dg.getD Diagnostics.empty)).2.1 := rfl

lemma blocked_means_noii (sfs : List SF) (block : List Nat) (dg : Option Diagnostics)
    (mode : BlockMode) :
    (compute_blocked_mean sfs block dg ⟨mode, false⟩).1 =
      normalize_means
        ((sfs.zip block).foldl block_step_plain
          (List.replicate (total_groups block) (SF.val 0),
           List.replicate (total_groups block) 0, dg.getD Diagnostics.empty)).1
        ((sfs.zip block).foldl block_step_plain
          (List.replicate (total_groups block) (SF.val 0),
           List.replicate (total_groups block) 0, dg.getD Diagnostics.empty)).2.1 := rfl

lemma blocked_mean_getD (sfs : List SF) (block : List Nat) (dg : Option Diagnostics)
    (opts : Options) (g : Nat) :
    (compute_blocked_mean sfs block dg opts).1.getD g (SF.val 0) =
      specMean (contribP opts.ignore_invalid (sfs.zip block) g) := by
  have hbl : ∀ p ∈ sfs.zip block, p.2 < total_groups block := fun p hp =>
    mem_lt_total_groups block p.2 (List.of_mem_zip hp).2
  have hrep : (List.replicate (total_groups block) (0 : Nat)).length =
      (List.replicate (total_groups block) (SF.val 0)).length := by
    simp
  have hb : ∀ p ∈ sfs.zip block,
      p.2 < (List.replicate (total_groups block) (SF.val 0)).length := by
    intro p hp
    rw [List.length_replicate]
    exact hbl p hp
  rcases opts with ⟨mode, ii⟩
  cases ii
  · rcases plain_fold_char (sfs.zip block) (List.replicate (total_groups block) (SF.val 0))
      (List.replicate (total_groups block) 0) (dg.getD Diagnostics.empty) hrep hb g with
      ⟨h1, h2, h3, h4⟩
    rw [getD_replicate_any] at h1
    rw [getD_replicate_any, Nat.zero_add] at h2
    rw [List.length_replicate] at h3 h4
    rw [blocked_means_noii sfs block dg mode]
    by_cases hg : g < total_groups block
    · rw [normalize_means_getD _ _ g (by rw [h3]; exact hg) (by rw [h4]; exact hg)]
      rw [h1, h2]
      unfold specMean
      by_cases hz : (contribP false (sfs.zip block) g).length = 0
      · rw [if_pos hz, if_pos hz]
        rw [List.length_eq_zero] at hz
        rw [hz]
        rfl
      · rw [if_neg hz, if_neg hz]
    · rw [getD_out_of_range _ _ _ (by rw [normalize_means_length, h3, h4]; simpa using hg)]
      rw [contrib_out_of_range _ _ _ (fun p hp hc => hg (by rw [← hc]; exact hbl p hp))]
      rfl
  · rcases checked_fold_char (sfs.zip block) (List.replicate (total_groups block) (SF.val 0))
      (List.replicate (total_groups block) 0) (dg.getD Diagnostics.empty) hrep hb g with
      ⟨h1, h2, h3, h4⟩
    rw [getD_replicate_any] at h1
    rw [getD_replicate_any, Nat.zero_add] at h2
    rw [List.length_replicate] at h3 h4
    rw [blocked_means_ii sfs block dg mode]
    by_cases hg : g < total_groups block
    · rw [normalize_means_getD _ _ g (by rw [h3]; exact hg) (by rw [h4]; exact hg)]
      rw [h1, h2]
      unfold specMean
      by_cases hz : (contribP true (sfs.zip block) g).length = 0
      · rw [if_pos hz, if_pos hz]
        rw [List.length_eq_zero] at hz
        rw [hz]
        rfl
      · rw [if_neg hz, if_neg hz]
    · rw [getD_out_of_range _ _ _ (by rw [normalize_means_length, h3, h4]; simpa using hg)]
      rw [contrib_out_of_range _ _ _ (fun p hp hc => hg (by rw [← hc]; exact hbl p hp))]
      rfl

lemma blocked_mean_length (sfs : List SF) (block : List Nat) (dg : Option Diagnostics)
    (opts : Options) :
    (compute_blocked_mean sfs block dg opts).1.length = total_groups block := by
  have hrep : (List.replicate (total_groups block) (0 : Nat)).length =
      (List.replicate (total_groups block) (SF.val 0)).length := by
    simp
  have hb : ∀ p ∈ sfs.zip block,
      p.2 < (List.replicate (total_groups block) (SF.val 0)).length := by
    intro p hp
    rw [List.length_replicate]
    exact mem_lt_total_groups block p.2 (List.of_mem_zip hp).2
  rcases opts with ⟨mode, ii⟩
  cases ii
  · rcases plain_fold_char (sfs.zip block) (List.replicate (total_groups block) (SF.val 0))
      (List.replicate (total_groups block) 0) (dg.getD Diagnostics.empty) hrep hb 0 with
      ⟨_, _, h3, h4⟩
    rw [List.length_replicate] at h3 h4
    rw [blocked_means_noii sfs block dg mode, normalize_means_length, h3, h4]
    simp
  · rcases checked_fold_char (sfs.zip block) (List.replicate (total_groups block) (SF.val 0))
      (List.replicate (total_groups block) 0) (dg.getD Diagnostics.empty) hrep hb 0 with
      ⟨_, _, h3, h4⟩
    rw [List.length_replicate] at h3 h4
    rw [blocked_means_ii sfs block dg mode, normalize_means_length, h3, h4]
    simp

end CenterSizeFactors

namespace CenterSizeFactors

/-- Claim C5: `compute_blocked_mean()` returns a vector of length N (the
number of blocks) in which every block's entry is the mean of the values of
that block that are included (all of them when `ignore_invalid` is false,
only classifier-valid ones when it is true): sum divided by count when the
count is non-zero, and 0 when the count is zero.  The input array is not
mutated — in this embedding the function returns only the mean vector and
the diagnostics. -/
theorem claim5_blocked_mean_per_block_stats (sfs : List SF) (block : List Nat) (dg : Option Diagnostics)
    (opts : Options) :
    (compute_blocked_mean sfs block dg opts).1.length = total_groups block ∧
    (∀ g, g < total_groups block →
      (compute_blocked_mean sfs block dg opts).1.getD g (SF.val 0) =
        specMean (contribP opts.ignore_invalid (sfs.zip block) g)) :=
  ⟨blocked_mean_length sfs block dg opts,
   fun g _ => blocked_mean_getD sfs block dg opts g⟩

/-- Witness for claim C5 at block 1 of `[2, 4, 4]` with blocks `[0, 1, 1]`. -/
theorem claim5_witness :
    1 < total_groups [0, 1, 1] ∧
    (compute_blocked_mean [SF.val 2, SF.val 4, SF.val 4] [0, 1, 1] none
        ⟨BlockMode.LOWEST, true⟩).1.getD 1 (SF.val 0) =
      specMean (contribP true ([SF.val 2, SF.val 4, SF.val 4].zip [0, 1, 1]) 1) :=
  ⟨by decide,
   (claim5_blocked_mean_per_block_stats [SF.val 2, SF.val 4, SF.val 4] [0, 1, 1] none
     ⟨BlockMode.LOWEST, true⟩).2 1 (by decide)⟩

end CenterSizeFactors

namespace CenterSizeFactors

lemma zip_map_snd (sfs : List SF) (block : List Nat) (f : SF × Nat → SF)
    (hlen : sfs.length = block.length) :
    ((sfs.zip block).map f).zip block = (sfs.zip block).map (fun p => (f p, p.2)) := by
  induction sfs generalizing block with
  | nil => cases block <;> simp
  | cons v vs ih =>
    cases block with
    | nil => simp at hlen
    | cons b bs =>
      simp only [List.zip_cons_cons, List.map_cons]
      rw [ih bs (by simpa using hlen)]

lemma filter_map_snd (pairs : List (SF × Nat)) (f : SF × Nat → SF) (g : Nat) :
    ((pairs.map (fun p => (f p, p.2))).filter (fun p => p.2 == g)).map Prod.fst =
      (pairs.filter (fun p => p.2 == g)).map f := by
  induction pairs with
  | nil => rfl
  | cons p ps ih =>
    simp only [List.map_cons, List.filter_cons]
    by_cases h : p.2 = g
    · simp [h, ih]
    · simp [h, ih]

lemma filtered_map_congr (pairs : List (SF × Nat)) (g : Nat) (F : SF × Nat → SF)
    (G : SF → SF) (h : ∀ p : SF × Nat, p.2 = g → F p = G p.1) :
    (pairs.filter (fun p => p.2 == g)).map F =
      ((pairs.filter (fun p => p.2 == g)).map Prod.fst).map G := by
  induction pairs with
  | nil => rfl
  | cons p ps ih =>
    rw [List.filter_cons]
    by_cases hp : (p.2 == g) = true
    · rw [if_pos hp, List.map_cons, List.map_cons, List.map_cons]
      rw [h p (by simpa using hp), ih]
    · rw [if_neg hp]
      exact ih

lemma contribP_as_filtered (ii : Bool) (pairs : List (SF × Nat)) (g : Nat) :
    contribP ii pairs g =
      ((pairs.filter (fun p => p.2 == g)).map Prod.fst).filter
        (fun v => includedB ii v) := by
  induction pairs with
  | nil => rfl
  | cons p ps ih =>
    rw [contribP_cons, List.filter_cons]
    by_cases h1 : (p.2 == g) = true
    · rw [if_pos h1, List.map_cons, List.filter_cons]
      by_cases h2 : includedB ii p.1 = true
      · rw [if_pos ⟨by simpa using h1, h2⟩, if_pos h2, ih]
      · rw [if_neg (fun hc => h2 hc.2), if_neg h2, ih]
    · rw [if_neg (fun hc => (by simpa using h1 : ¬ p.2 = g) hc.1), if_neg h1, ih]

lemma blockEntries_filter (sfs : List SF) (block : List Nat) (g : Nat) (ii : Bool) :
    (blockEntries sfs block g).filter (fun v => includedB ii v) =
      contribP ii (sfs.zip block) g := by
  rw [contribP_as_filtered]
  rfl

lemma sub_mean_eq (sfs : List SF) (block : List Nat) (g : Nat)
    (dg dg2 : Option Diagnostics) (opts : Options) :
    (compute_mean (blockEntries sfs block g) dg2 opts).1 =
      (compute_blocked_mean sfs block dg opts).1.getD g (SF.val 0) := by
  rw [compute_mean_char, blocked_mean_getD, blockEntries_filter]

end CenterSizeFactors

namespace CenterSizeFactors

lemma per_block_factors (sfs : List SF) (block : List Nat) (dg : Option Diagnostics)
    (ii : Bool) :
    (compute_blocked sfs block dg ⟨BlockMode.PER_BLOCK, ii⟩).factors =
      (sfs.zip block).map (fun p =>
        if ((compute_blocked_mean sfs block dg ⟨BlockMode.PER_BLOCK, ii⟩).1.getD p.2
            (SF.val 0)).truthy then
          p.1.div ((compute_blocked_mean sfs block dg ⟨BlockMode.PER_BLOCK, ii⟩).1.getD p.2
            (SF.val 0))
        else p.1) := rfl

/-- Claim C3: with `block_mode = PER_BLOCK`, for every block `g` the entries
of the rescaled array belonging to block `g` are exactly the result of
running global centering `compute()` on the subsequence of the input
belonging to block `g`, with the same options and an arbitrary diagnostics
argument — no information flows between blocks. -/
theorem claim3_per_block_refines_global (sfs : List SF) (block : List Nat) (dg dg2 : Option Diagnostics)
    (ii : Bool) (hlen : sfs.length = block.length) (g : Nat) :
    blockEntries (compute_blocked sfs block dg ⟨BlockMode.PER_BLOCK, ii⟩).factors block g =
      (compute (blockEntries sfs block g) dg2 ⟨BlockMode.PER_BLOCK, ii⟩).factors := by
  have hL : blockEntries ((sfs.zip block).map (fun p =>
      if ((compute_blocked_mean sfs block dg ⟨BlockMode.PER_BLOCK, ii⟩).1.getD p.2
          (SF.val 0)).truthy then
        p.1.div ((compute_blocked_mean sfs block dg ⟨BlockMode.PER_BLOCK, ii⟩).1.getD p.2
          (SF.val 0))
      else p.1)) block g =
      (blockEntries sfs block g).map (fun v =>
        if ((compute_blocked_mean sfs block dg ⟨BlockMode.PER_BLOCK, ii⟩).1.getD g
            (SF.val 0)).truthy then
          v.div ((compute_blocked_mean sfs block dg ⟨BlockMode.PER_BLOCK, ii⟩).1.getD g
            (SF.val 0))
        else v) := by
    unfold blockEntries
    rw [zip_map_snd sfs block _ hlen, filter_map_snd]
    exact filtered_map_congr (sfs.zip block) g _ _ (by
      intro p hp
      rw [hp])
  rw [per_block_factors, hL, compute_factors_proj]
  rw [sub_mean_eq sfs block g dg dg2 ⟨BlockMode.PER_BLOCK, ii⟩]
  by_cases hm : ((compute_blocked_mean sfs block dg ⟨BlockMode.PER_BLOCK, ii⟩).1.getD g
      (SF.val 0)).truthy = true
  · rw [if_pos hm]
    refine List.map_congr_left ?_
    intro v _
    rw [if_pos hm]
  · rw [if_neg hm]
    have hid : (blockEntries sfs block g).map (fun v =>
        if ((compute_blocked_mean sfs block dg ⟨BlockMode.PER_BLOCK, ii⟩).1.getD g
            (SF.val 0)).truthy then
          v.div ((compute_blocked_mean sfs block dg ⟨BlockMode.PER_BLOCK, ii⟩).1.getD g
            (SF.val 0))
        else v) = (blockEntries sfs block g).map id :=
      List.map_congr_left (fun v _ => if_neg hm)
    rw [hid, List.map_id]

/-- Witness for claim C3 at block 1 of `[2, 4, 4]` with blocks `[0, 1, 1]`. -/
theorem claim3_witness :
    blockEntries (compute_blocked [SF.val 2, SF.val 4, SF.val 4] [0, 1, 1] none
        ⟨BlockMode.PER_BLOCK, true⟩).factors [0, 1, 1] 1 =
      (compute (blockEntries [SF.val 2, SF.val 4, SF.val 4] [0, 1, 1] 1) none
        ⟨BlockMode.PER_BLOCK, true⟩).factors :=
  claim3_per_block_refines_global [SF.val 2, SF.val 4, SF.val 4] [0, 1, 1] none none true (by decide) 1

end CenterSizeFactors

namespace CenterSizeFactors

lemma specMean_valid_nonneg (c : List SF) (h : ∀ x ∈ c, isValid x = true) :
    ∃ q : ℚ, specMean c = SF.val q ∧ 0 ≤ q := by
  unfold specMean
  split
  · exact ⟨0, rfl, le_refl 0⟩
  · rename_i hne
    have hvals : ∀ x ∈ c, ∃ q : ℚ, x = SF.val q := fun x hx =>
      (isValid_val x (h x hx)).imp (fun q hq => hq.1)
    rw [foldl_add_vals c 0 hvals]
    have hL : ((c.length : ℚ)) ≠ 0 := by
      simpa using hne
    rw [SF.div_val _ _ hL]
    refine ⟨_, rfl, ?_⟩
    apply div_nonneg
    · rw [zero_add]
      apply List.sum_nonneg
      intro q hq
      rcases List.mem_map.mp hq with ⟨x, hx, rfl⟩
      rcases isValid_val x (h x hx) with ⟨q', hq', hpos⟩
      rw [hq']
      exact le_of_lt (by simpa [SF.toQ] using hpos)
    · exact Nat.cast_nonneg _

lemma contrib_valid (pairs : List (SF × Nat)) (g : Nat) :
    ∀ x ∈ contribP true pairs g, isValid x = true := by
  intro x hx
  unfold contribP at hx
  rcases List.mem_map.mp hx with ⟨p, hp, rfl⟩
  have hcond := List.of_mem_filter hp
  simp only [Bool.and_eq_true] at hcond
  simpa [includedB] using hcond.2

lemma blocked_means_entries_valid (sfs : List SF) (block : List Nat)
    (dg : Option Diagnostics) (mode : BlockMode) :
    ∀ m ∈ (compute_blocked_mean sfs block dg ⟨mode, true⟩).1,
      ∃ q : ℚ, m = SF.val q ∧ 0 ≤ q := by
  intro m hm
  rcases List.mem_iff_getElem.mp hm with ⟨g, hg, hgm⟩
  have hmg : m = (compute_blocked_mean sfs block dg ⟨mode, true⟩).1.getD g (SF.val 0) := by
    rw [List.getD_eq_getElem?_getD, List.getElem?_eq_getElem hg]
    exact hgm.symm
  rw [hmg, blocked_mean_getD]
  exact specMean_valid_nonneg _ (contrib_valid (sfs.zip block) g)

lemma lowest_go (ms : List SF) (hms : ∀ m ∈ ms, ∃ q : ℚ, m = SF.val q ∧ 0 ≤ q) (a : ℚ) :
    ms.foldl lowest_step (SF.val a, true) =
      (SF.val (((ms.filter (fun m => m.truthy)).map SF.toQ).foldl min a), true) := by
  induction ms generalizing a with
  | nil => rfl
  | cons m ms ih =>
    rcases hms m (by simp) with ⟨q, hq, hq0⟩
    subst hq
    have hms' : ∀ x ∈ ms, ∃ r : ℚ, x = SF.val r ∧ 0 ≤ r := fun x hx => hms x (by simp [hx])
    rw [List.foldl_cons]
    by_cases ht : (SF.val q).truthy = true
    · have hstep : lowest_step (SF.val a, true) (SF.val q) =
          (if (SF.val q).lt (SF.val a) then (SF.val q, true) else (SF.val a, true)) := by
        simp [lowest_step, ht]
      rw [hstep, List.filter_cons, if_pos ht, List.map_cons, List.foldl_cons]
      by_cases hlt : q < a
      · rw [if_pos (by simpa [SF.lt] using hlt), ih hms' q]
        simp only [SF.toQ]
        rw [min_eq_right (le_of_lt hlt)]
      · rw [if_neg (by simpa [SF.lt] using hlt), ih hms' a]
        simp only [SF.toQ]
        rw [min_eq_left (le_of_not_lt hlt)]
    · have hstep : lowest_step (SF.val a, true) (SF.val q) = (SF.val a, true) := by
        simp [lowest_step, ht]
      rw [hstep, List.filter_cons, if_neg ht]
      exact ih hms' a

lemma lowest_start (ms : List SF) (hms : ∀ m ∈ ms, ∃ q : ℚ, m = SF.val q ∧ 0 ≤ q) :
    (((ms.filter (fun m => m.truthy)).map SF.toQ).min? = none →
      ms.foldl lowest_step (SF.val 0, false) = (SF.val 0, false)) ∧
    (∀ q : ℚ, ((ms.filter (fun m => m.truthy)).map SF.toQ).min? = some q →
      ms.foldl lowest_step (SF.val 0, false) = (SF.val q, true)) := by
  induction ms with
  | nil => exact ⟨fun _ => rfl, fun q hq => by simp at hq⟩
  | cons m ms ih =>
    rcases hms m (by simp) with ⟨q0, hq0, hq00⟩
    subst hq0
    have hms' : ∀ x ∈ ms, ∃ r : ℚ, x = SF.val r ∧ 0 ≤ r := fun x hx => hms x (by simp [hx])
    rw [List.foldl_cons]
    by_cases ht : (SF.val q0).truthy = true
    · have hstep : lowest_step (SF.val 0, false) (SF.val q0) = (SF.val q0, true) := by
        simp [lowest_step, ht]
      rw [hstep, lowest_go ms hms' q0]
      constructor
      · intro hnone
        rw [List.filter_cons, if_pos ht] at hnone
        simp [List.min?] at hnone
      · intro q hq
        rw [List.filter_cons, if_pos ht, List.map_cons] at hq
        rw [show ((SF.toQ (SF.val q0)) :: ((ms.filter (fun m => m.truthy)).map SF.toQ)).min? =
          some (((ms.filter (fun m => m.truthy)).map SF.toQ).foldl min (SF.toQ (SF.val q0)))
          from rfl] at hq
        injection hq with hq
        rw [← hq]
        simp [SF.toQ]
    · have hstep : lowest_step (SF.val 0, false) (SF.val q0) = (SF.val 0, false) := by
        simp [lowest_step, ht]
      rw [hstep, List.filter_cons, if_neg ht]
      exact ih hms'

end CenterSizeFactors

namespace CenterSizeFactors

lemma lowest_factors (sfs : List SF) (block : List Nat) (dg : Option Diagnostics)
    (ii : Bool) :
    (compute_blocked sfs block dg ⟨BlockMode.LOWEST, ii⟩).factors =
      (if ((compute_blocked_mean sfs block dg ⟨BlockMode.LOWEST, ii⟩).1.foldl lowest_step
          (SF.val 0, false)).1.gt0 then
        sfs.map (fun x => x.div
          ((compute_blocked_mean sfs block dg ⟨BlockMode.LOWEST, ii⟩).1.foldl lowest_step
            (SF.val 0, false)).1)
      else sfs) := rfl

/-- Claim C2 as amended: with `ignore_invalid = true` (so that every
per-block mean is a nonnegative finite value), `compute_blocked()` with
`block_mode = LOWEST` finds the minimum strictly-positive per-block mean
(blocks whose mean is exactly zero are excluded); if at least one block has
a positive mean, every value in the entire array, regardless of block, is
divided by that single minimum; if no block has a positive mean, the array
is left unmodified. -/
theorem claim2_lowest_min_positive_mean (sfs : List SF) (block : List Nat) (dg : Option Diagnostics) :
    (∀ q : ℚ,
      ((((compute_blocked_mean sfs block dg ⟨BlockMode.LOWEST, true⟩).1.filter
        (fun m => m.truthy)).map SF.toQ).min? = some q) →
      0 < q ∧
      (compute_blocked sfs block dg ⟨BlockMode.LOWEST, true⟩).factors =
        sfs.map (fun x => x.div (SF.val q))) ∧
    (((((compute_blocked_mean sfs block dg ⟨BlockMode.LOWEST, true⟩).1.filter
        (fun m => m.truthy)).map SF.toQ).min? = none) →
      (compute_blocked sfs block dg ⟨BlockMode.LOWEST, true⟩).factors = sfs) := by
  have hms := blocked_means_entries_valid sfs block dg BlockMode.LOWEST
  constructor
  · intro q hq
    have hpos : 0 < q := by
      have hmem : q ∈ ((compute_blocked_mean sfs block dg ⟨BlockMode.LOWEST, true⟩).1.filter
          (fun m => m.truthy)).map SF.toQ := List.min?_mem min_choice hq
      rcases List.mem_map.mp hmem with ⟨m, hmf, rfl⟩
      have hmm : m ∈ (compute_blocked_mean sfs block dg ⟨BlockMode.LOWEST, true⟩).1 :=
        List.mem_of_mem_filter hmf
      have htr : m.truthy = true := List.of_mem_filter hmf
      rcases hms m hmm with ⟨q', hq', hq0⟩
      subst hq'
      have hne : q' ≠ 0 := by
        simpa [SF.truthy] using htr
      simp only [SF.toQ]
      exact lt_of_le_of_ne hq0 (fun hc => hne hc.symm)
    refine ⟨hpos, ?_⟩
    rw [lowest_factors, (lowest_start _ hms).2 q hq]
    rw [if_pos (by simpa [SF.gt0] using hpos)]
  · intro hq
    rw [lowest_factors, (lowest_start _ hms).1 hq]
    rw [if_neg (by simp [SF.gt0])]

/-- Witness for claim C2 at `[2, 4]` with blocks `[0, 1]`: the minimum
positive block mean is 2 and the whole array is divided by it. -/
theorem claim2_witness :
    0 < (2 : ℚ) ∧
    (compute_blocked [SF.val 2, SF.val 4] [0, 1] none ⟨BlockMode.LOWEST, true⟩).factors =
      [SF.val 2, SF.val 4].map (fun x => x.div (SF.val 2)) :=
  (claim2_lowest_min_positive_mean [SF.val 2, SF.val 4] [0, 1] none).1 2 (by decide)

end CenterSizeFactors
